import Mathlib

/-!
Verification of the core job-queue engine specification against its code.

The repository ships the queue getter module (`src/classes/queue-getters.ts`)
together with the pause and rate-limiter test suites.  The getter module is
embedded directly below; the atomic script library, the worker loop and the
rate limiter are not part of the shipped sources, so they are modelled from
the specification (each such definition carries a doc comment starting with
`Modelled from the spec:`).
-/

namespace Getters


/-- Backing-store view consumed by the queue getters.  Every list key
(`wait`, `paused`, `active`) and every sorted-set key (`completed`, `failed`,
`delayed`, `repeat`, `waiting-children`) maps to an optional container;
`none` models a missing key, whose command reply is nil.  A sorted set is
kept as its score-ascending id sequence, which is all the getters consume. -/
structure Store where
  lists : String → Option (List String)
  zsets : String → Option (List String)

/-- `commandByType` in queue-getters.ts: the `waiting` alias resolves to the
`wait` key before dispatching on the container kind. -/
def typeAlias (t : String) : String := if t = "waiting" then "wait" else t

/-- The sorted-set branch of the `switch` in `commandByType`. -/
def isZSetType (k : String) : Bool :=
  k = "completed" || k = "failed" || k = "delayed" || k = "repeat" ||
    k = "waiting-children"

/-- The list branch of the `switch` in `commandByType`. -/
def isListType (k : String) : Bool :=
  k = "active" || k = "wait" || k = "paused"

/-- The counting command queued by `commandByType` for one type (zcard for
sorted sets, llen for lists) together with its reply.  The outer `Option` is
`none` when the `switch` falls through and no command is queued at all; the
inner `Option Nat` is the store reply, `none` when the key is missing. -/
def countCmd (s : Store) (t : String) : Option (Option Nat) :=
  let k := typeAlias t
  if isZSetType k then some ((s.zsets k).map List.length)
  else if isListType k then some ((s.lists k).map List.length)
  else none

/-- The default type list used by `getJobCounts` when called without
arguments. -/
def defaultCountTypes : List String :=
  ["active", "completed", "delayed", "failed", "paused", "waiting",
   "waiting-children"]

/-- `getJobCounts` in queue-getters.ts: resolve the requested types (or the
default seven), queue one counting command per recognised type, and assign
`counts[currentTypes[index]] = res[1] || 0` for each reply, so a nil reply is
reported as 0. -/
def getJobCounts (s : Store) (types : List String) : List (String × Nat) :=
  let currentTypes := if types.isEmpty then defaultCountTypes else types
  let replies := currentTypes.filterMap (countCmd s)
  (List.range replies.length).map fun i =>
    ((currentTypes[i]?).getD "", ((replies[i]?).getD none).getD 0)

/-- `getJobCountByTypes` in queue-getters.ts: sum of the per-type counts. -/
def getJobCountByTypes (s : Store) (types : List String) : Nat :=
  ((getJobCounts s types).map Prod.snd).sum

/-- `count` in queue-getters.ts: the number of jobs waiting to be processed. -/
def count (s : Store) : Nat :=
  getJobCountByTypes s ["waiting", "paused", "delayed", "waiting-children"]

/-- `getWaitingCount` in queue-getters.ts. -/
def getWaitingCount (s : Store) : Nat :=
  getJobCountByTypes s ["waiting", "paused"]

/-- Redis index-range semantics shared by LRANGE and ZRANGE: negative indices
count from the end of the sequence, out-of-range indices are clamped, and an
inverted range yields the empty list. -/
def redisRange (l : List String) (start stop : Int) : List String :=
  let n : Int := Int.ofNat l.length
  let s0 : Int := if start < 0 then n + start else start
  let s1 : Int := if s0 < 0 then 0 else s0
  let e0 : Int := if stop < 0 then n + stop else stop
  let e1 : Int := if e0 > n - 1 then n - 1 else e0
  if s1 > e1 then [] else (l.drop s1.toNat).take (e1 - s1 + 1).toNat

/-- The range command queued by `getRanges` for one type, together with its
reply.  The `Bool` records whether the queued command was an `lrange` (the
entry pushed onto `multiCommands`); lists use `lrange(key, -(end+1),
-(start+1))` when ascending and `lrange(key, start, end)` otherwise, sorted
sets use `zrange` when ascending and `zrevrange` otherwise.  The reply is
`none` when the key is missing. -/
def rangeCmd (s : Store) (asc : Bool) (start en : Int) (t : String) :
    Option (Bool × Option (List String)) :=
  let k := typeAlias t
  if isZSetType k then
    some (false, (s.zsets k).map fun l =>
      if asc then redisRange l start en else redisRange l.reverse start en)
  else if isListType k then
    some (true, (s.lists k).map fun l =>
      if asc then redisRange l (-(en + 1)) (-(start + 1))
      else redisRange l start en)
  else none

/-- `getRanges` in queue-getters.ts: queue one range command per recognised
type, read each reply as `response[1] || []`, reverse the replies of
ascending `lrange` commands, and concatenate everything in command order. -/
def getRanges (s : Store) (types : List String) (start en : Int)
    (asc : Bool) : List String :=
  ((types.filterMap (rangeCmd s asc start en)).map fun p =>
    let r := p.2.getD []
    if asc && p.1 then r.reverse else r).flatten

/-- `getJobs` in queue-getters.ts, at the level of the job ids it fetches:
when `waiting` is among the requested types, `paused` is appended to the type
list before the ranges are read.  (Resolving each id through `Job.fromId` is
outside the shipped sources.) -/
def getJobs (s : Store) (types : List String) (start en : Int)
    (asc : Bool) : List String :=
  let types := if "waiting" ∈ types then types ++ ["paused"] else types
  getRanges s types start en asc

/-- A store with every container key missing. -/
def emptyStore : Store := ⟨fun _ => none, fun _ => none⟩

/-- A small populated store used to witness the getter theorems. -/
def sampleStore : Store :=
  ⟨fun k =>
      if k = "wait" then some ["1", "2"]
      else if k = "paused" then some ["3"]
      else some ["9"],
    fun k => if k = "delayed" then some ["4", "5"] else some ["6"]⟩
end Getters

namespace Scripts

/-- Modelled from the spec: the retry backoff policies of §4.1 moveToFailed —
`fixed` uses a constant delay, `exponential` uses `base*2^(attemptsMade-1)`. -/
inductive BackoffKind
  | fixed (base : Nat)
  | exponential (base : Nat)
deriving DecidableEq, Repr

/-- Modelled from the spec: the per-job hash fields of §3.2 that the script
library reads and writes (payload and options are opaque to the core beyond
the control metadata kept here). -/
structure JobRec where
  jname : String
  data : List (String × String)
  delay : Nat
  priority : Nat
  attempts : Nat
  attemptsMade : Nat
  backoff : Option BackoffKind
  removeOnComplete : Bool
  removeOnFail : Bool
  ignoreDepOnFail : Bool
  parentKey : Option String
  deps : List String
  returnvalue : Option String
  failedReason : Option String
  processedOn : Option Nat
  finishedOn : Option Nat
  stalledCounter : Nat
deriving DecidableEq, Repr

/-- Modelled from the spec: the limiter configuration of §4.4 — `max` tokens
per `duration` milliseconds. -/
structure LimiterCfg where
  max : Nat
  duration : Nat
deriving DecidableEq, Repr

/-- Modelled from the spec: one token bucket of §4.4, a counter with a TTL
kept here as the absolute expiry timestamp. -/
structure LimiterBucket where
  tokens : Nat
  expireAt : Nat
deriving DecidableEq, Repr

/-- Modelled from the spec: the per-queue state the atomic scripts operate
on — the seven job-state containers of §3.1 (`wait`, `paused`, `active` as
ordered id sequences with the head of `wait` the next runnable job;
`delayed` as a set of ids scored by absolute fire time; `waiting-children`,
`completed`, `failed` as id sets), the per-job hashes, the per-job lock
tokens, the paused flag of the `meta` hash, the monotonic `id` counter and
the default limiter bucket. -/
structure QState where
  wait : List String
  paused : List String
  active : List String
  delayed : List (String × Nat)
  waitingChildren : List String
  completed : List String
  failed : List String
  jobs : String → Option JobRec
  locks : String → Option String
  metaPaused : Bool
  idCounter : Nat
  bucket : LimiterBucket

/-- The empty queue: no jobs, no locks, not paused. -/
def initQ : QState :=
  ⟨[], [], [], [], [], [], [], fun _ => none, fun _ => none, false, 0, ⟨0, 0⟩⟩

/-- How many of the seven state containers hold `id` (counted with
multiplicity). -/
def containerCount (q : QState) (id : String) : Nat :=
  q.wait.count id + q.paused.count id + q.active.count id
    + (q.delayed.map Prod.fst).count id + q.waitingChildren.count id
    + q.completed.count id + q.failed.count id

/-- Invariant I1/P1: a job id is in exactly one of the seven state
containers exactly when its job hash exists, and in none otherwise. -/
def StateInv (q : QState) : Prop :=
  ∀ id, containerCount q id = if (q.jobs id).isSome then 1 else 0

/-- Overwrite (or delete, with `none`) the job hash of `id`. -/
def setJob (q : QState) (id : String) (j : Option JobRec) : QState :=
  { q with jobs := fun x => if x = id then j else q.jobs x }

/-- Overwrite (or release, with `none`) the lock of `id`. -/
def setLock (q : QState) (id : String) (t : Option String) : QState :=
  { q with locks := fun x => if x = id then t else q.locks x }

/-- Insert a runnable id at the tail of the runnable list.  Writers route on
the meta paused flag (the paused list while the queue is paused, `wait`
otherwise) so that the pause/resume rename always finds its destination
empty. -/
def pushRunnable (q : QState) (id : String) : QState :=
  if q.metaPaused then { q with paused := q.paused ++ [id] }
  else { q with wait := q.wait ++ [id] }

/-- Insert a batch of runnable ids at the tail of the runnable list, routed
like `pushRunnable`. -/
def pushRunnableAll (q : QState) (ids : List String) : QState :=
  if q.metaPaused then { q with paused := q.paused ++ ids }
  else { q with wait := q.wait ++ ids }

/-- Reinsert a recovered id at the head of the runnable list, routed like
`pushRunnable`. -/
def pushRunnableFront (q : QState) (id : String) : QState :=
  if q.metaPaused then { q with paused := id :: q.paused }
  else { q with wait := id :: q.wait }

/-- Modelled from the spec: the options accepted by the addJob script
(§4.1, §9): priority, delay, attempts, backoff, jobId override, removeOn
flags, dependency handling on failure. -/
structure AddOpts where
  jobId : Option String
  delay : Nat
  priority : Nat
  attempts : Nat
  backoff : Option BackoffKind
  removeOnComplete : Bool
  removeOnFail : Bool
  ignoreDepOnFail : Bool
deriving DecidableEq, Repr

/-- Default addJob options: immediate job, one attempt, retained on
completion and failure. -/
def AddOpts.default : AddOpts := ⟨none, 0, 0, 1, none, false, false, false⟩

/-- Reply of the addJob script: either the id of an already existing job
together with its current state, or the id of the freshly created job. -/
inductive AddReply
  | existing (id : String) (state : String)
  | created (id : String)
deriving DecidableEq, Repr

/-- Modelled from the spec: `Job.getState` as exposed by the state
predicates of §6 — the name of the container currently holding the job,
with wait and paused both reported as waiting. -/
def getState (q : QState) (id : String) : String :=
  if id ∈ q.active then "active"
  else if id ∈ q.delayed.map Prod.fst then "delayed"
  else if id ∈ q.waitingChildren then "waiting-children"
  else if id ∈ q.completed then "completed"
  else if id ∈ q.failed then "failed"
  else if id ∈ q.wait ∨ id ∈ q.paused then "waiting"
  else "unknown"

/-- The fresh job hash written by the addJob script. -/
def newJobRec (name : String) (data : List (String × String))
    (opts : AddOpts) (parentKey : Option String) : JobRec :=
  { jname := name, data := data, delay := opts.delay,
    priority := opts.priority, attempts := opts.attempts,
    attemptsMade := 0, backoff := opts.backoff,
    removeOnComplete := opts.removeOnComplete,
    removeOnFail := opts.removeOnFail,
    ignoreDepOnFail := opts.ignoreDepOnFail, parentKey := parentKey,
    deps := [], returnvalue := none, failedReason := none,
    processedOn := none, finishedOn := none, stalledCounter := 0 }

/-- Record `id` in the parent's dependency set. -/
def addDep (q : QState) (p id : String) : QState :=
  { q with
    jobs := fun x =>
      if x = p then
        (q.jobs p).map fun (pj : JobRec) => { pj with deps := pj.deps ++ [id] }
      else q.jobs x }

/-- Insertion of a freshly written job id into its one starting container:
`waiting-children` when a parent key is supplied (the child id is also
recorded in the parent's dependency set), `delayed` scored by the absolute
fire time `now + delay` when `delay > 0`, and the tail of the runnable list
otherwise. -/
def insertNewJob (q : QState) (id : String) (delay : Nat)
    (parentKey : Option String) (now : Nat) : QState :=
  match parentKey with
  | some p =>
    let q2 := addDep q p id
    { q2 with waitingChildren := q2.waitingChildren ++ [id] }
  | none =>
    if 0 < delay then { q with delayed := (id, now + delay) :: q.delayed }
    else pushRunnable q id

/-- The addJob script of §4.1 at a fixed id: an id whose job hash already
exists makes the call idempotent — the existing job's current state is
returned and nothing is mutated; otherwise the job hash is written, the
counter is bumped and the id is inserted into exactly one container. -/
def addJobId (q : QState) (name : String) (data : List (String × String))
    (opts : AddOpts) (parentKey : Option String) (now : Nat) (id : String) :
    QState × AddReply :=
  if (q.jobs id).isSome then
    (q, .existing id (getState q id))
  else
    (insertNewJob
      (setJob { q with idCounter := q.idCounter + 1 } id
        (some (newJobRec name data opts parentKey)))
      id opts.delay parentKey now, .created id)

/-- Modelled from the spec: the addJob script of §4.1.  The id is allocated
from the `id` counter unless a `jobId` override is supplied, and the job is
written and placed by `addJobId`.  (The spec additionally packs priority
bits into the low bits of the delayed score and mirrors prioritised ids in
the `priority` set; the `priority` set is not one of the seven job-state
containers, so the score encoding is kept as the plain fire time here.) -/
def addJob (q : QState) (name : String) (data : List (String × String))
    (opts : AddOpts) (parentKey : Option String) (now : Nat) :
    QState × AddReply :=
  addJobId q name data opts parentKey now
    (match opts.jobId with
      | some j => j
      | none => toString (q.idCounter + 1))

/-- Reply of the moveToActive script. -/
inductive FetchReply
  | pausedQ
  | empty
  | limited (delay : Nat)
  | job (id : String)
deriving DecidableEq, Repr

/-- Modelled from the spec: the token-bucket step of §4.4 — on each
moveToActive the bucket is incremented; when the increment opens a fresh
window (the previous TTL has expired) the value is 1 and the TTL is set to
`duration`; when the incremented value exceeds `max`, the remaining TTL is
returned as the stall delay. -/
def limiterHit (b : LimiterBucket) (cfg : LimiterCfg) (now : Nat) :
    LimiterBucket × Option Nat :=
  let cnt := if b.expireAt ≤ now then 1 else b.tokens + 1
  let exp := if b.expireAt ≤ now then now + cfg.duration else b.expireAt
  if cfg.max < cnt then (⟨cnt, exp⟩, some (exp - now))
  else (⟨cnt, exp⟩, none)

/-- Modelled from the spec: the moveToActive script of §4.1.  If the queue
paused flag is set the script replies `paused`.  Otherwise the limiter of
§4.4 is consulted: when over quota the candidate job at the head of `wait`
is moved to `delayed` with score `now + delay` (the bucket's remaining TTL)
and the worker receives the stall reply carrying the delay.  Otherwise the
head of `wait` is popped and pushed onto `active`, its lock is set to the
worker token and `processedOn` is written.  (The lock TTL and the `active`
event publication have no effect on the containers and are abstracted.) -/
def moveToActive (q : QState) (cfg : Option LimiterCfg) (token : String)
    (now : Nat) : QState × FetchReply :=
  if q.metaPaused then (q, .pausedQ)
  else
    match q.wait with
    | [] => (q, .empty)
    | id :: rest =>
      let limited : Option (LimiterBucket × Nat) :=
        match cfg with
        | none => none
        | some c =>
          match limiterHit q.bucket c now with
          | (b', some d) => some (b', d)
          | (_, none) => none
      match limited with
      | some (b', d) =>
        ({ q with
            wait := rest,
            delayed := (id, now + d) :: q.delayed,
            bucket := b' }, .limited d)
      | none =>
        let b' := match cfg with
          | none => q.bucket
          | some c => (limiterHit q.bucket c now).1
        let qa := { q with
          wait := rest,
          active := id :: q.active,
          bucket := b' }
        let q1 := setLock qa id (some token)
        (setJob q1 id ((q1.jobs id).map fun (j : JobRec) =>
          { j with processedOn := some now }), .job id)

/-- Reply of the completion, failure, retry and lock scripts. -/
inductive FinishReply
  | ok
  | lockMismatch
  | jobNotFound
  | notInState
deriving DecidableEq, Repr

/-- Modelled from the spec: the parent-resolution step of §4.1
moveToCompleted — the completed child is erased from its parent's
dependency set, and when that set becomes empty the parent moves from
`waiting-children` to the runnable list. -/
def resolveParent (q : QState) (id : String) : QState :=
  match (q.jobs id).bind (fun j => j.parentKey) with
  | none => q
  | some p =>
    match q.jobs p with
    | none => q
    | some pj =>
      let newDeps := pj.deps.erase id
      let q1 := setJob q p (some { pj with deps := newDeps })
      if newDeps = [] ∧ p ∈ q1.waitingChildren then
        pushRunnable { q1 with
          waitingChildren := q1.waitingChildren.erase p } p
      else q1

/-- Modelled from the spec: the moveToCompleted script of §4.1.  The lock
owner must equal the worker token, else `LOCK_MISMATCH`; a job that is not
in `active` holds no valid lock (I3) and is likewise refused.  The job is
removed from `active`, its lock is released, `returnvalue` and `finishedOn`
are written, its parent's dependencies are resolved, and the id is either
dropped entirely (`removeOnComplete`) or inserted into `completed`. -/
def moveToCompleted (q : QState) (id : String) (retval : String)
    (token : String) (now : Nat) : QState × FinishReply :=
  match q.jobs id with
  | none => (q, .jobNotFound)
  | some j =>
    if q.locks id = some token ∧ id ∈ q.active then
      let q1 := setLock { q with active := q.active.erase id } id none
      let j1 := { j with
        returnvalue := some retval,
        finishedOn := some now }
      let q2 := resolveParent (setJob q1 id (some j1)) id
      if j.removeOnComplete then (setJob q2 id none, .ok)
      else ({ q2 with completed := q2.completed ++ [id] }, .ok)
    else (q, .lockMismatch)

/-- Modelled from the spec: the backoff delay of §4.1 moveToFailed. -/
def backoffDelay (k : Option BackoffKind) (attemptsMade : Nat) : Nat :=
  match k with
  | none => 0
  | some (.fixed base) => base
  | some (.exponential base) => base * 2 ^ (attemptsMade - 1)

/-- Is `c` a child of `p`, i.e. does `c`'s job hash name `p` as parent? -/
def isChildOf (q : QState) (p c : String) : Bool :=
  match q.jobs c with
  | some j => j.parentKey = some p
  | none => false

/-- Modelled from the spec: failure propagation of §4.1 moveToFailed — the
children of the failed parent that sit in `waiting-children` are moved to
`failed` with reason "parent failed". -/
def propagateFail (q : QState) (p : String) : QState :=
  { q with
    waitingChildren := q.waitingChildren.filter fun c => !(isChildOf q p c),
    failed := q.failed ++ q.waitingChildren.filter fun c => isChildOf q p c,
    jobs := fun x =>
      if isChildOf q p x then
        (q.jobs x).map fun j => { j with failedReason := some "parent failed" }
      else q.jobs x }

/-- Modelled from the spec: the moveToFailed script of §4.1, symmetric to
completion.  After the lock check the job leaves `active`; when attempts
remain it is reinserted into `delayed` under the backoff delay (or into the
runnable list for an immediate retry), otherwise it lands in `failed` (or
is dropped when `removeOnFail`), propagating the failure to its
waiting-children unless `ignoreDependencyOnFailure` is set. -/
def moveToFailed (q : QState) (id : String) (reason : String)
    (token : String) (now : Nat) : QState × FinishReply :=
  match q.jobs id with
  | none => (q, .jobNotFound)
  | some j =>
    if q.locks id = some token ∧ id ∈ q.active then
      let q1 := setLock { q with active := q.active.erase id } id none
      let j1 := { j with
        attemptsMade := j.attemptsMade + 1,
        failedReason := some reason }
      if j1.attemptsMade < j.attempts then
        let d := backoffDelay j.backoff j1.attemptsMade
        if 0 < d then
          (setJob { q1 with delayed := (id, now + d) :: q1.delayed } id
            (some j1), .ok)
        else (pushRunnable (setJob q1 id (some j1)) id, .ok)
      else
        let q2 := if j.ignoreDepOnFail then q1 else propagateFail q1 id
        if j.removeOnFail then (setJob q2 id none, .ok)
        else
          (setJob { q2 with failed := q2.failed ++ [id] } id
            (some { j1 with finishedOn := some now }), .ok)
    else (q, .lockMismatch)

/-- Modelled from the spec: the retryJob script of §4.1 — valid only from
`failed`; the job is reinserted into the runnable list (attempt bookkeeping
reset). -/
def retryJob (q : QState) (id : String) : QState × FinishReply :=
  match q.jobs id with
  | none => (q, .jobNotFound)
  | some j =>
    if id ∈ q.failed then
      let j1 := { j with
        attemptsMade := 0,
        failedReason := none,
        finishedOn := none }
      (pushRunnable (setJob { q with failed := q.failed.erase id } id
        (some j1)) id, .ok)
    else (q, .notInState)

/-- Modelled from the spec: the promoteDelayed script of §4.1 — every id in
`delayed` whose score is due (≤ `now`) is popped and reinserted into the
runnable list; the reply carries the number of promoted jobs. -/
def promoteDelayed (q : QState) (now : Nat) : QState × Nat :=
  let ready := q.delayed.filter fun e => e.2 ≤ now
  let rest := q.delayed.filter fun e => !(e.2 ≤ now : Bool)
  (pushRunnableAll { q with delayed := rest } (ready.map Prod.fst),
    ready.length)

/-- Modelled from the spec: one stalled-job recovery inside the
moveStalledJobs script of §4.1 — a job still in `active` whose lock key is
missing is stalled; its stall counter is bumped and while within
`maxStalledCount` it is reinserted at the head of the runnable list,
otherwise it moves to `failed` with the stall reason. -/
def moveStalledJob (q : QState) (id : String) (maxStalledCount : Nat) :
    QState :=
  if q.locks id = none ∧ id ∈ q.active then
    match q.jobs id with
    | none => q
    | some j =>
      let j1 := { j with stalledCounter := j.stalledCounter + 1 }
      if j1.stalledCounter ≤ maxStalledCount then
        pushRunnableFront
          (setJob { q with active := q.active.erase id } id (some j1)) id
      else
        let j2 := { j1 with
          failedReason := some "job stalled more than allowable limit" }
        let q1 := setJob { q with active := q.active.erase id } id (some j2)
        { q1 with failed := q1.failed ++ [id] }
  else q

/-- Modelled from the spec: the pause script of §4.1 — set the paused flag
in `meta` and rename `wait` onto `paused`.  With all writers routed on the
flag the rename target is always empty, so the rename is the lossless
transfer below. -/
def pauseQ (q : QState) : QState :=
  { q with metaPaused := true, paused := q.paused ++ q.wait, wait := [] }

/-- Modelled from the spec: the resume script of §4.1 — clear the paused
flag in `meta` and rename `paused` back onto `wait`. -/
def resumeQ (q : QState) : QState :=
  { q with metaPaused := false, wait := q.wait ++ q.paused, paused := [] }

/-- Modelled from the spec: `isPaused` reads the paused flag of the `meta`
hash. -/
def isPaused (q : QState) : Bool := q.metaPaused

end Scripts

namespace Scripts

/-- Modelled from the spec: one atomic execution of a script-library
transition against the queue state (§4.1, §5 — the scripts are the only
writers of the state containers, and each one executes atomically, so the
serialization order of script executions is the queue's evolution). -/
inductive ScriptStep : QState → QState → Prop
  | add (q : QState) (name : String) (data : List (String × String))
      (opts : AddOpts) (parentKey : Option String) (now : Nat) :
      ScriptStep q (addJob q name data opts parentKey now).1
  | fetch (q : QState) (cfg : Option LimiterCfg) (token : String)
      (now : Nat) : ScriptStep q (moveToActive q cfg token now).1
  | complete (q : QState) (id retval token : String) (now : Nat) :
      ScriptStep q (moveToCompleted q id retval token now).1
  | fail (q : QState) (id reason token : String) (now : Nat) :
      ScriptStep q (moveToFailed q id reason token now).1
  | retry (q : QState) (id : String) : ScriptStep q (retryJob q id).1
  | promote (q : QState) (now : Nat) : ScriptStep q (promoteDelayed q now).1
  | stalled (q : QState) (id : String) (msc : Nat) :
      ScriptStep q (moveStalledJob q id msc)
  | pauseS (q : QState) : ScriptStep q (pauseQ q)
  | resumeS (q : QState) : ScriptStep q (resumeQ q)

/-- A queue state reachable from the empty queue by script executions. -/
def Reachable (q : QState) : Prop :=
  Relation.ReflTransGen ScriptStep initQ q

/-- The queue state after adding one plain job to the empty queue. -/
def exampleAdded : QState :=
  (addJob initQ "test" [] AddOpts.default none 0).1

end Scripts

namespace Scripts

/-- Modelled from the spec: a worker's successive successful job activations
under the limiter, as the list of their timestamps.  Each activation runs
the token-bucket step of §4.4 (`limiterHit`); the trace is admitted when no
activation is rejected, starting from the supplied bucket. -/
def traceAdmitted (cfg : LimiterCfg) : LimiterBucket → List Nat → Bool
  | _, [] => true
  | b, t :: ts =>
    match limiterHit b cfg t with
    | (b', none) => traceAdmitted cfg b' ts
    | (_, some _) => false

/-- Modelled from the spec: the groupKey handling of §4.4 — the group value
is `data[groupKey]` when the limiter has a `groupKey` and the job data has
that field. -/
def groupValueOf (groupKey : Option String)
    (data : List (String × String)) : Option String :=
  groupKey.bind fun g => data.lookup g

/-- Modelled from the spec: §3.2/§4.4 — at enqueue the job id is suffixed
with `:{groupValue}` when a group value is present; when the field is
absent no group suffix is applied. -/
def groupSuffixedId (groupKey : Option String)
    (data : List (String × String)) (id : String) : String :=
  match groupValueOf groupKey data with
  | some v => id ++ ":" ++ v
  | none => id

/-- Modelled from the spec: §4.4 — the limiter bucket key is
`limiter:{groupValue}` for grouped jobs and the shared default `limiter`
key otherwise. -/
def limiterBucketKey (groupKey : Option String)
    (data : List (String × String)) : String :=
  match groupValueOf groupKey data with
  | some v => "limiter:" ++ v
  | none => "limiter"

end Scripts

namespace Scripts

/-- A queue whose limiter bucket is saturated (1 token taken, TTL until
time 100) and whose wait list holds one candidate job. -/
def limitedQ : QState :=
  { initQ with wait := ["1"], bucket := ⟨1, 100⟩ }

/-- Add options carrying a fixed jobId override. -/
def optsWithId : AddOpts := { AddOpts.default with jobId := some "fixed" }

end Scripts

namespace WorkerM

/-- Modelled from the spec: the observable local state of one worker
(§4.3, §5) — the local paused flag, whether a pending `pause()` call has
resolved, and the number of in-flight processor slots. -/
structure WState where
  paused : Bool
  pauseResolved : Bool
  inflight : Nat
deriving DecidableEq, Repr

/-- The observable events of the worker loop. -/
inductive WEvent
  | fetch
  | finish
  | pauseCall
  | pauseResolve
  | resumeCall
deriving DecidableEq, Repr

/-- Modelled from the spec: the worker loop of §4.3 with its graceful
pause.  A `fetch` (a successful `moveToActive`, which is what publishes an
`active` event for this worker) fills a slot and is possible only while the
local paused flag is clear; `finish` drains a slot; `pauseCall` sets the
local paused flag; the pending `pause()` promise resolves only once the
flag is set and all in-flight slots have drained; `resumeCall` clears the
flag and the resolved marker. -/
inductive WStep : WState → WEvent → WState → Prop
  | fetch (s : WState) (h : s.paused = false) :
      WStep s .fetch { s with inflight := s.inflight + 1 }
  | finish (s : WState) (h : 0 < s.inflight) :
      WStep s .finish { s with inflight := s.inflight - 1 }
  | pauseCall (s : WState) : WStep s .pauseCall { s with paused := true }
  | pauseResolve (s : WState) (hp : s.paused = true) (hd : s.inflight = 0) :
      WStep s .pauseResolve { s with pauseResolved := true }
  | resumeCall (s : WState) :
      WStep s .resumeCall { s with paused := false, pauseResolved := false }

/-- A fresh worker: running, no pending pause, no in-flight slots. -/
def initW : WState := ⟨false, false, 0⟩

/-- A worker state reachable from a fresh worker. -/
def WReachable (s : WState) : Prop :=
  Relation.ReflTransGen (fun a b => ∃ e, WStep a e b) initW s

/-- The worker state right after a pause() has resolved. -/
def examplePausedW : WState := ⟨true, true, 0⟩

end WorkerM

namespace Getters

/-- `redisRange` over the full range 0 .. -1 returns the whole sequence. -/
theorem redisRange_full (l : List String) : redisRange l 0 (-1) = l := by
  unfold redisRange
  cases l with
  | nil => simp
  | cons a t => simp [Int.ofNat_succ]

/-- The value of `count` depends only on the wait, paused, delayed and
waiting-children containers: it is the sum of their sizes. -/
theorem count_formula (s : Store) :
    count s
      = ((s.lists "wait").map List.length).getD 0
        + ((s.lists "paused").map List.length).getD 0
        + ((s.zsets "delayed").map List.length).getD 0
        + ((s.zsets "waiting-children").map List.length).getD 0 := by
  simp [count, getJobCountByTypes, getJobCounts, countCmd, typeAlias,
    isZSetType, isListType]
  cases hw : s.lists "wait" <;> cases hp : s.lists "paused" <;>
    cases hd : s.zsets "delayed" <;> cases hc : s.zsets "waiting-children" <;>
      simp [List.range_succ] <;> ring
end Getters

/-- Claim C8: `getJobCounts` called with no type arguments returns a count
for exactly the seven types active, completed, delayed, failed, paused,
waiting, waiting-children, and any type whose container is missing (store
reply nil) is reported as count 0. -/
theorem getJobCounts_default_types (s : Getters.Store) :
    (Getters.getJobCounts s [] =
      ["active", "completed", "delayed", "failed", "paused", "waiting",
       "waiting-children"].map fun t =>
        (t, ((Getters.countCmd s t).getD none).getD 0)) ∧
    ∀ t, t ∈ Getters.defaultCountTypes → Getters.countCmd s t = some none →
      (Getters.getJobCounts s []).lookup t = some 0 := by
  refine ⟨rfl, ?_⟩
  intro t ht hnil
  fin_cases ht <;>
    simp [Getters.getJobCounts, Getters.defaultCountTypes, Getters.countCmd,
      Getters.typeAlias, Getters.isZSetType, Getters.isListType,
      List.range_succ, List.lookup] at hnil ⊢ <;>
    simp [hnil]

/-- Witness for C8 at a store whose containers are all missing. -/
theorem getJobCounts_default_types_witness :
    (Getters.getJobCounts Getters.emptyStore []).lookup "active" = some 0 :=
  (getJobCounts_default_types Getters.emptyStore).2 "active" (by decide)
    (by rfl)

/-- Claim C9: the waiting type transparently includes paused jobs at the
getter interface: `getJobs` with waiting among its types also reads the
paused list (its ids are appended to the fetch), and `getWaitingCount`
returns the sum of the wait and paused list lengths. -/
theorem getJobs_waiting_includes_paused (s : Getters.Store) :
    (∀ types start en asc, "waiting" ∈ types →
      Getters.getJobs s types start en asc
        = Getters.getRanges s (types ++ ["paused"]) start en asc) ∧
    Getters.getJobs s ["waiting"] 0 (-1) false
      = (s.lists "wait").getD [] ++ (s.lists "paused").getD [] ∧
    Getters.getWaitingCount s
      = ((s.lists "wait").getD []).length
        + ((s.lists "paused").getD []).length := by
  refine ⟨fun types start en asc h => by simp [Getters.getJobs, h], ?_, ?_⟩
  · simp [Getters.getJobs, Getters.getRanges, Getters.rangeCmd,
      Getters.typeAlias, Getters.isZSetType, Getters.isListType]
    cases hw : s.lists "wait" <;> cases hp : s.lists "paused" <;>
      simp [Getters.redisRange_full]
  · simp [Getters.getWaitingCount, Getters.getJobCountByTypes,
      Getters.getJobCounts, Getters.countCmd, Getters.typeAlias,
      Getters.isZSetType, Getters.isListType]
    cases hw : s.lists "wait" <;> cases hp : s.lists "paused" <;>
      simp [List.range_succ]

/-- Witness for C9 on the sample store. -/
theorem getJobs_waiting_includes_paused_witness :
    Getters.getJobs Getters.sampleStore ["waiting"] 0 (-1) true
      = Getters.getRanges Getters.sampleStore (["waiting"] ++ ["paused"]) 0
          (-1) true :=
  (getJobs_waiting_includes_paused Getters.sampleStore).1 ["waiting"] 0 (-1)
    true (by decide)

/-- Claim C10: `count` returns the sum of the sizes of exactly the wait,
paused, delayed and waiting-children containers; the active, completed and
failed containers never contribute, so two stores agreeing on those four
containers have the same `count`. -/
theorem count_counts_only_pending (s s' : Getters.Store)
    (hw : s'.lists "wait" = s.lists "wait")
    (hp : s'.lists "paused" = s.lists "paused")
    (hd : s'.zsets "delayed" = s.zsets "delayed")
    (hc : s'.zsets "waiting-children" = s.zsets "waiting-children") :
    Getters.count s
      = ((s.lists "wait").map List.length).getD 0
        + ((s.lists "paused").map List.length).getD 0
        + ((s.zsets "delayed").map List.length).getD 0
        + ((s.zsets "waiting-children").map List.length).getD 0 ∧
    Getters.count s' = Getters.count s := by
  refine ⟨Getters.count_formula s, ?_⟩
  rw [Getters.count_formula s, Getters.count_formula s', hw, hp, hd, hc]

/-- Witness for C10: the sample store against itself. -/
theorem count_counts_only_pending_witness :
    Getters.count Getters.sampleStore
      = ((Getters.sampleStore.lists "wait").map List.length).getD 0
        + ((Getters.sampleStore.lists "paused").map List.length).getD 0
        + ((Getters.sampleStore.zsets "delayed").map List.length).getD 0
        + ((Getters.sampleStore.zsets "waiting-children").map
            List.length).getD 0 :=
  (count_counts_only_pending Getters.sampleStore Getters.sampleStore rfl rfl
    rfl rfl).1

namespace Scripts

/-- Splitting a list by a predicate splits its occurrence counts. -/
theorem count_filter_split (p : String → Bool) (a : String)
    (l : List String) :
    (l.filter p).count a + (l.filter fun x => !p x).count a = l.count a := by
  induction l with
  | nil => simp
  | cons b t ih => by_cases hb : p b <;> simp [hb, List.count_cons] <;> omega

/-- Splitting a scored list by a predicate splits the occurrence counts of
its ids. -/
theorem count_map_fst_filter_split (p : String × Nat → Bool) (a : String)
    (l : List (String × Nat)) :
    ((l.filter p).map Prod.fst).count a
      + ((l.filter fun e => !p e).map Prod.fst).count a
      = (l.map Prod.fst).count a := by
  induction l with
  | nil => simp
  | cons b t ih => by_cases hb : p b <;> simp [hb, List.count_cons] <;> omega

/-- The pause script preserves the exclusivity invariant. -/
theorem inv_pauseQ (q : QState) (h : StateInv q) : StateInv (pauseQ q) := by
  intro id
  have hq := h id
  simp [containerCount, pauseQ, List.count_append] at *
  omega

/-- The resume script preserves the exclusivity invariant. -/
theorem inv_resumeQ (q : QState) (h : StateInv q) : StateInv (resumeQ q) := by
  intro id
  have hq := h id
  simp [containerCount, resumeQ, List.count_append] at *
  omega

/-- The retryJob script preserves the exclusivity invariant. -/
theorem inv_retryJob (q : QState) (i : String) (h : StateInv q) :
    StateInv (retryJob q i).1 := by
  unfold retryJob
  cases hj : q.jobs i with
  | none => simpa using h
  | some j =>
    by_cases hf : i ∈ q.failed
    · have hcf : 0 < q.failed.count i := List.count_pos_iff.mpr hf
      intro id
      have hq := h id
      have hqi := h i
      simp only [hj, Option.isSome_some, if_true] at hqi
      by_cases hid : id = i
      · subst hid
        by_cases hp : q.metaPaused <;>
          simp [hf, hp, pushRunnable, setJob, containerCount,
            List.count_append, List.count_cons, List.count_erase,
            hj] at hq hqi ⊢ <;> omega
      · by_cases hp : q.metaPaused <;>
          simp [hf, hp, hid, pushRunnable, setJob, containerCount,
            List.count_append, List.count_cons, List.count_erase] at hq ⊢ <;>
          omega
    · intro id
      simpa [hf] using h id

/-- The promoteDelayed script preserves the exclusivity invariant. -/
theorem inv_promoteDelayed (q : QState) (now : Nat) (h : StateInv q) :
    StateInv (promoteDelayed q now).1 := by
  intro id
  have hq := h id
  have hsplit := count_map_fst_filter_split (fun e => decide (e.2 ≤ now)) id
    q.delayed
  unfold promoteDelayed
  by_cases hp : q.metaPaused <;>
    simp [hp, pushRunnableAll, containerCount, List.count_append]
      at hq hsplit ⊢ <;>
    omega

/-- The stalled-job recovery step preserves the exclusivity invariant. -/
theorem inv_moveStalledJob (q : QState) (i : String) (msc : Nat)
    (h : StateInv q) : StateInv (moveStalledJob q i msc) := by
  unfold moveStalledJob
  by_cases hl : q.locks i = none ∧ i ∈ q.active
  · simp only [hl, if_true]
    cases hj : q.jobs i with
    | none => simpa using h
    | some j =>
      have hca : 0 < q.active.count i := List.count_pos_iff.mpr hl.2
      intro id
      have hq := h id
      have hqi := h i
      simp only [hj, Option.isSome_some, if_true] at hqi
      by_cases hid : id = i
      · subst hid
        by_cases hp : q.metaPaused <;>
          by_cases hms : j.stalledCounter + 1 ≤ msc <;>
          simp [hp, hms, pushRunnableFront, setJob, containerCount,
            List.count_append, List.count_cons, List.count_erase,
            hj] at hq hqi ⊢ <;> omega
      · by_cases hp : q.metaPaused <;>
          by_cases hms : j.stalledCounter + 1 ≤ msc <;>
          simp [hp, hms, hid, pushRunnableFront, setJob, containerCount,
            List.count_append, List.count_cons, List.count_erase]
            at hq ⊢ <;> omega
  · simp only [hl, if_false]
    exact h

end Scripts

namespace Scripts

/-- The moveToActive script preserves the exclusivity invariant. -/
theorem inv_moveToActive (q : QState) (cfg : Option LimiterCfg)
    (token : String) (now : Nat) (h : StateInv q) :
    StateInv (moveToActive q cfg token now).1 := by
  unfold moveToActive
  by_cases hp : q.metaPaused
  · simpa [hp] using h
  · cases hw : q.wait with
    | nil => simpa [hp] using h
    | cons i rest =>
      simp only [hp, if_false, Bool.false_eq_true]
      split
      · next b' d heq =>
        intro id
        have hq := h id
        by_cases hid : id = i <;>
          simp [hid, hw, containerCount, List.count_cons] at hq ⊢ <;> omega
      · next heq =>
        intro id
        have hq := h id
        by_cases hid : id = i <;>
          simp [hid, hw, containerCount, List.count_cons, setLock, setJob,
            Option.isSome_map] at hq ⊢ <;> omega

/-- The addJob script at a fixed id preserves the exclusivity invariant. -/
theorem inv_addJobId (q : QState) (name : String)
    (data : List (String × String)) (opts : AddOpts)
    (parentKey : Option String) (now : Nat) (i : String) (h : StateInv q) :
    StateInv (addJobId q name data opts parentKey now i).1 := by
  unfold addJobId
  split
  · exact h
  · next hfresh =>
    have hzero : containerCount q i = 0 := by
      have := h i
      simp only [Bool.not_eq_true, Option.not_isSome,
        Option.isNone_iff_eq_none] at hfresh
      simpa [hfresh] using this
    unfold insertNewJob
    cases parentKey with
    | some p =>
      intro id
      have hq := h id
      by_cases hid : id = i
      · subst hid
        by_cases hpi : p = id
        · subst hpi
          simp [containerCount, List.count_append, setJob, addDep,
            Option.isSome_map] at hzero ⊢
          omega
        · simp [containerCount, List.count_append, setJob, addDep, hpi,
            Ne.symm hpi] at hzero ⊢
          omega
      · by_cases hpd : id = p
        · subst hpd
          simp [containerCount, List.count_append, List.count_cons, setJob,
            addDep, hid, Ne.symm hid, Option.isSome_map] at hq ⊢
          omega
        · simp [containerCount, List.count_append, List.count_cons, setJob,
            addDep, hid, Ne.symm hid, hpd, Ne.symm hpd] at hq ⊢
          omega
    | none =>
      by_cases hd : 0 < opts.delay
      · intro id
        have hq := h id
        by_cases hid : id = i
        · subst hid
          simp [hd, containerCount, List.count_cons, setJob] at hzero ⊢
          omega
        · simp [hd, hid, Ne.symm hid, containerCount, List.count_cons,
            setJob] at hq ⊢
          omega
      · intro id
        have hq := h id
        by_cases hid : id = i
        · subst hid
          by_cases hp : q.metaPaused <;>
            simp [hd, hp, pushRunnable, containerCount, List.count_append,
              setJob] at hzero ⊢ <;> omega
        · by_cases hp : q.metaPaused <;>
            simp [hd, hp, hid, Ne.symm hid, pushRunnable, containerCount,
              List.count_append, setJob] at hq ⊢ <;> omega

/-- The addJob script preserves the exclusivity invariant. -/
theorem inv_addJob (q : QState) (name : String)
    (data : List (String × String)) (opts : AddOpts)
    (parentKey : Option String) (now : Nat) (h : StateInv q) :
    StateInv (addJob q name data opts parentKey now).1 :=
  inv_addJobId q name data opts parentKey now _ h

/-- Parent resolution moves the parent between containers without changing
any id's total container count. -/
theorem resolveParent_containerCount (q : QState) (i id : String) :
    containerCount (resolveParent q i) id = containerCount q id := by
  unfold resolveParent
  split
  · rfl
  · next p heq =>
    split
    · rfl
    · next pj hpj =>
      dsimp only
      split
      · next hguard =>
        have hmem : p ∈ (setJob q p (some { pj with
            deps := pj.deps.erase i })).waitingChildren := hguard.2
        simp only [setJob] at hmem
        have hcp : 0 < q.waitingChildren.count p :=
          List.count_pos_iff.mpr hmem
        by_cases hid : id = p
        · subst hid
          by_cases hp : q.metaPaused <;>
            simp [hp, pushRunnable, setJob, containerCount,
              List.count_append, List.count_erase] <;> omega
        · by_cases hp : q.metaPaused <;>
            simp [hp, hid, Ne.symm hid, pushRunnable, setJob, containerCount,
              List.count_append, List.count_erase]
      · simp [setJob, containerCount]

/-- Parent resolution keeps every job hash in existence. -/
theorem resolveParent_jobs_isSome (q : QState) (i x : String) :
    ((resolveParent q i).jobs x).isSome = (q.jobs x).isSome := by
  unfold resolveParent
  split
  · rfl
  · next p heq =>
    split
    · rfl
    · next pj hpj =>
      dsimp only
      split
      · next hguard =>
        by_cases hx : x = p
        · subst hx
          by_cases hp : q.metaPaused <;>
            simp [hp, pushRunnable, setJob, hpj]
        · by_cases hp : q.metaPaused <;>
            simp [hp, hx, pushRunnable, setJob]
      · by_cases hx : x = p
        · subst hx
          simp [setJob, hpj]
        · simp [setJob, hx]

/-- Failure propagation moves the children from waiting-children to failed
without changing any id's total container count. -/
theorem propagateFail_containerCount (q : QState) (p id : String) :
    containerCount (propagateFail q p) id = containerCount q id := by
  have hsplit := count_filter_split (fun c => isChildOf q p c) id
    q.waitingChildren
  simp [propagateFail, containerCount, List.count_append] at hsplit ⊢
  omega

/-- Failure propagation keeps every job hash in existence. -/
theorem propagateFail_jobs_isSome (q : QState) (p x : String) :
    ((propagateFail q p).jobs x).isSome = (q.jobs x).isSome := by
  by_cases hx : isChildOf q p x <;>
    simp [propagateFail, hx, Option.isSome_map]

/-- Writing a job hash does not touch the containers. -/
theorem containerCount_setJob (q : QState) (i : String) (j : Option JobRec)
    (id : String) : containerCount (setJob q i j) id = containerCount q id :=
  rfl

/-- Writing a lock does not touch the containers. -/
theorem containerCount_setLock (q : QState) (i : String) (t : Option String)
    (id : String) : containerCount (setLock q i t) id = containerCount q id :=
  rfl

/-- Appending an id to completed adds exactly its occurrences. -/
theorem containerCount_appendCompleted (q : QState) (i id : String) :
    containerCount { q with completed := q.completed ++ [i] } id
      = containerCount q id + List.count id [i] := by
  simp [containerCount, List.count_append]
  omega

/-- Appending an id to failed adds exactly its occurrences. -/
theorem containerCount_appendFailed (q : QState) (i id : String) :
    containerCount { q with failed := q.failed ++ [i] } id
      = containerCount q id + List.count id [i] := by
  simp [containerCount, List.count_append]
  omega

/-- Prepending an entry to delayed adds exactly its occurrences. -/
theorem containerCount_consDelayed (q : QState) (e : String × Nat)
    (id : String) :
    containerCount { q with delayed := e :: q.delayed } id
      = containerCount q id + List.count id [e.1] := by
  simp [containerCount, List.count_cons]
  omega

/-- Pushing a runnable id adds exactly its occurrences. -/
theorem containerCount_pushRunnable (q : QState) (i id : String) :
    containerCount (pushRunnable q i) id
      = containerCount q id + List.count id [i] := by
  unfold pushRunnable
  split <;> simp [containerCount, List.count_append] <;> omega

/-- The job hashes after a hash write. -/
theorem jobs_setJob (q : QState) (i : String) (j : Option JobRec)
    (x : String) : (setJob q i j).jobs x = if x = i then j else q.jobs x :=
  rfl

/-- A lock write leaves the job hashes unchanged. -/
theorem jobs_setLock (q : QState) (i : String) (t : Option String)
    (x : String) : (setLock q i t).jobs x = q.jobs x := rfl

/-- A runnable push leaves the job hashes unchanged. -/
theorem jobs_pushRunnable (q : QState) (i x : String) :
    (pushRunnable q i).jobs x = q.jobs x := by
  unfold pushRunnable
  split <;> rfl

/-- The moveToCompleted script preserves the exclusivity invariant. -/
theorem inv_moveToCompleted (q : QState) (i retval token : String)
    (now : Nat) (h : StateInv q) :
    StateInv (moveToCompleted q i retval token now).1 := by
  unfold moveToCompleted
  split
  · exact h
  · next j hj =>
    split
    · next hcond =>
      have hca : 0 < q.active.count i := List.count_pos_iff.mpr hcond.2
      have hqi := h i
      rw [hj] at hqi
      simp only [Option.isSome_some, if_true] at hqi
      simp only [containerCount] at hqi
      dsimp only
      split
      · intro id
        have hq := h id
        simp only [containerCount] at hq
        simp only [containerCount_setJob, resolveParent_containerCount,
          containerCount_setLock]
        by_cases hid : id = i
        · subst hid
          simp [containerCount, List.count_erase, jobs_setJob]
          omega
        · simp [containerCount, List.count_erase, hid, Ne.symm hid,
            jobs_setJob, apply_ite Option.isSome, resolveParent_jobs_isSome,
            jobs_setLock]
          omega
      · intro id
        have hq := h id
        simp only [containerCount] at hq
        simp only [containerCount_appendCompleted, containerCount_setJob,
          resolveParent_containerCount, containerCount_setLock]
        by_cases hid : id = i
        · subst hid
          simp [containerCount, List.count_erase, jobs_setJob,
            apply_ite Option.isSome, resolveParent_jobs_isSome, jobs_setLock]
          omega
        · simp [containerCount, List.count_erase, hid, Ne.symm hid,
            jobs_setJob, apply_ite Option.isSome, resolveParent_jobs_isSome,
            jobs_setLock]
          omega
    · exact fun id => h id

/-- The moveToFailed script preserves the exclusivity invariant. -/
theorem inv_moveToFailed (q : QState) (i reason token : String) (now : Nat)
    (h : StateInv q) : StateInv (moveToFailed q i reason token now).1 := by
  unfold moveToFailed
  split
  · exact h
  · next j hj =>
    split
    · next hcond =>
      have hca : 0 < q.active.count i := List.count_pos_iff.mpr hcond.2
      have hqi := h i
      rw [hj] at hqi
      simp only [Option.isSome_some, if_true, containerCount] at hqi
      dsimp only
      split
      · split
        · intro id
          have hq := h id
          simp only [containerCount] at hq
          simp only [containerCount_setJob, containerCount_consDelayed,
            containerCount_setLock]
          by_cases hid : id = i
          · subst hid
            simp [containerCount, List.count_erase, jobs_setJob]
            omega
          · simp [containerCount, List.count_erase, hid, Ne.symm hid,
              jobs_setJob, jobs_setLock]
            omega
        · intro id
          have hq := h id
          simp only [containerCount] at hq
          simp only [containerCount_pushRunnable, containerCount_setJob,
            containerCount_setLock]
          by_cases hid : id = i
          · subst hid
            simp [containerCount, List.count_erase, jobs_pushRunnable,
              jobs_setJob]
            omega
          · simp [containerCount, List.count_erase, hid, Ne.symm hid,
              jobs_pushRunnable, jobs_setJob, jobs_setLock]
            omega
      · intro id
        have hq := h id
        simp only [containerCount] at hq
        split
        · split
          · -- removeOnFail and ignoreDepOnFail
            simp only [containerCount_setJob, containerCount_setLock]
            by_cases hid : id = i
            · subst hid
              simp [containerCount, List.count_erase, jobs_setJob]
              omega
            · simp [containerCount, List.count_erase, hid, Ne.symm hid,
                jobs_setJob, jobs_setLock]
              omega
          · -- removeOnFail, propagate to children
            simp only [containerCount_setJob, propagateFail_containerCount,
              containerCount_setLock]
            by_cases hid : id = i
            · subst hid
              simp [containerCount, List.count_erase, jobs_setJob]
              omega
            · simp [containerCount, List.count_erase, hid, Ne.symm hid,
                jobs_setJob, jobs_setLock, propagateFail_jobs_isSome,
                apply_ite Option.isSome]
              omega
        · split
          · -- keep in failed, ignoreDepOnFail
            simp only [containerCount_setJob, containerCount_appendFailed,
              containerCount_setLock]
            by_cases hid : id = i
            · subst hid
              simp [containerCount, List.count_erase, jobs_setJob]
              omega
            · simp [containerCount, List.count_erase, hid, Ne.symm hid,
                jobs_setJob, jobs_setLock]
              omega
          · -- keep in failed, propagate to children
            simp only [containerCount_setJob, containerCount_appendFailed,
              propagateFail_containerCount, containerCount_setLock]
            by_cases hid : id = i
            · subst hid
              simp [containerCount, List.count_erase, jobs_setJob]
              omega
            · simp [containerCount, List.count_erase, hid, Ne.symm hid,
                jobs_setJob, jobs_setLock, propagateFail_jobs_isSome,
                apply_ite Option.isSome]
              omega
    · exact fun id => h id

end Scripts

namespace Scripts

/-- Every script-library transition preserves the exclusivity invariant. -/
theorem inv_scriptStep (q q' : QState) (hs : ScriptStep q q')
    (h : StateInv q) : StateInv q' := by
  cases hs with
  | add name data opts parentKey now =>
    exact inv_addJob q name data opts parentKey now h
  | fetch cfg token now => exact inv_moveToActive q cfg token now h
  | complete id retval token now =>
    exact inv_moveToCompleted q id retval token now h
  | fail id reason token now =>
    exact inv_moveToFailed q id reason token now h
  | retry id => exact inv_retryJob q id h
  | promote now => exact inv_promoteDelayed q now h
  | stalled id msc => exact inv_moveStalledJob q id msc h
  | pauseS => exact inv_pauseQ q h
  | resumeS => exact inv_resumeQ q h

/-- Every reachable queue state satisfies the exclusivity invariant. -/
theorem inv_reachable (q : QState) (hr : Reachable q) : StateInv q := by
  induction hr with
  | refl => intro id; simp [initQ, containerCount]
  | tail hab hstep ih => exact inv_scriptStep _ _ hstep ih
end Scripts

/-- Claim C1: in every reachable queue state, a job id appears in exactly
one of the seven state containers wait, paused, active, delayed,
waiting-children, completed, failed when its job hash exists (and in none
otherwise), and every script-library transition preserves this
exclusivity. -/
theorem job_in_exactly_one_container (q : Scripts.QState)
    (hr : Scripts.Reachable q) :
    (∀ id, (q.jobs id).isSome → Scripts.containerCount q id = 1) ∧
    Scripts.StateInv q ∧
    (∀ q', Scripts.ScriptStep q q' → Scripts.StateInv q') := by
  have h := Scripts.inv_reachable q hr
  refine ⟨fun id hid => by simpa [hid] using h id, h,
    fun q' hs => Scripts.inv_scriptStep q q' hs h⟩

/-- Witness for C1: the freshly added job sits in exactly one container. -/
theorem job_in_exactly_one_container_witness :
    Scripts.containerCount Scripts.exampleAdded "1" = 1 :=
  (job_in_exactly_one_container Scripts.exampleAdded
    (Relation.ReflTransGen.single
      (Scripts.ScriptStep.add Scripts.initQ "test" [] Scripts.AddOpts.default
        none 0))).1 "1" (by rfl)

namespace Scripts

open WorkerM

/-- Claim C7: pause and resume flip the paused flag in the queue meta hash
and atomically rename wait and paused (losslessly transferring the ids in
either direction); consequently `isPaused` returns true after `pause`
resolves and false after `resume` resolves. -/
theorem pause_resume_flip (q : QState) :
    isPaused (pauseQ q) = true ∧ isPaused (resumeQ q) = false ∧
    (pauseQ q).wait = [] ∧ (pauseQ q).paused = q.paused ++ q.wait ∧
    (resumeQ q).paused = [] ∧ (resumeQ q).wait = q.wait ++ q.paused ∧
    (∀ id, (pauseQ q).wait.count id + (pauseQ q).paused.count id
        = q.wait.count id + q.paused.count id) ∧
    (∀ id, (resumeQ q).wait.count id + (resumeQ q).paused.count id
        = q.wait.count id + q.paused.count id) := by
  refine ⟨rfl, rfl, rfl, rfl, rfl, rfl, fun id => ?_, fun id => ?_⟩
  · simp [pauseQ, List.count_append]
    try omega
  · simp [resumeQ, List.count_append]
    try omega

/-- After addJob at a fixed id the job hash for that id exists, whether it
was just created or already present. -/
theorem addJobId_jobs_isSome (q : QState) (name : String)
    (data : List (String × String)) (opts : AddOpts)
    (parentKey : Option String) (now : Nat) (i : String) :
    (((addJobId q name data opts parentKey now i).1).jobs i).isSome = true := by
  unfold addJobId
  split
  · next hex => simpa using hex
  · next hfresh =>
    cases parentKey with
    | some p =>
      unfold insertNewJob
      dsimp only
      by_cases hpi : i = p <;>
        simp [addDep, setJob, hpi, Option.isSome_map]
    | none =>
      unfold insertNewJob
      dsimp only
      split <;> simp [setJob, jobs_pushRunnable, jobs_setJob]

/-- Claim C6: addJob with a fixed jobId override is idempotent — when a job
with that id already exists the call returns the existing job's current
state and leaves the whole queue state unchanged (no duplicate entry in any
container), and a repeated call after any first call is a no-op returning
the existing state. -/
theorem addJob_fixed_id_idempotent (q : QState) (name : String)
    (data : List (String × String)) (opts : AddOpts)
    (parentKey : Option String) (now : Nat) (j : String)
    (hid : opts.jobId = some j) :
    ((q.jobs j).isSome →
      addJob q name data opts parentKey now = (q, .existing j (getState q j))) ∧
    (addJob (addJob q name data opts parentKey now).1 name data opts
        parentKey now).1
      = (addJob q name data opts parentKey now).1 ∧
    (addJob (addJob q name data opts parentKey now).1 name data opts
        parentKey now).2
      = .existing j
          (getState (addJob q name data opts parentKey now).1 j) := by
  have hsome := addJobId_jobs_isSome q name data opts parentKey now j
  unfold addJob
  rw [hid]
  dsimp only
  have hsome2 : ((addJobId q name data opts parentKey now j).1.jobs j).isSome
      = true := hsome
  have hstep : ∀ q' : QState, (q'.jobs j).isSome = true →
      addJobId q' name data opts parentKey now j
        = (q', .existing j (getState q' j)) := by
    intro q' hex
    unfold addJobId
    simp [hex]
  refine ⟨fun hex => hstep q hex, ?_, ?_⟩
  · rw [hstep _ hsome2]
  · rw [hstep _ hsome2]

/-- Claim C3: when moveToActive runs while the rate limiter is over quota,
the candidate job at the head of wait is moved into the delayed set with
score now+delay, where delay is the bucket's remaining TTL, the worker
receives the stall reply carrying the delay (the `{null, delay}` reply),
and the job is not placed in active. -/
theorem rate_limited_fetch_delays_job (q : QState) (c : LimiterCfg)
    (token : String) (now : Nat) (id : String) (rest : List String)
    (d : Nat) (hw : q.wait = id :: rest) (hp : q.metaPaused = false)
    (hover : (limiterHit q.bucket c now).2 = some d) :
    moveToActive q (some c) token now
      = ({ q with
            wait := rest,
            delayed := (id, now + d) :: q.delayed,
            bucket := (limiterHit q.bucket c now).1 }, .limited d) ∧
    d = (limiterHit q.bucket c now).1.expireAt - now ∧
    (moveToActive q (some c) token now).1.active = q.active := by
  rcases hlim : limiterHit q.bucket c now with ⟨b', od⟩
  rw [hlim] at hover
  simp only at hover
  subst hover
  have hd : d = b'.expireAt - now := by
    unfold limiterHit at hlim
    dsimp only at hlim
    split at hlim <;> split at hlim <;>
      rw [Prod.mk.injEq] at hlim
    · obtain ⟨h1, h2⟩ := hlim
      rw [← h1]
      injection h2 with h2
      dsimp only
      omega
    · exact (Option.noConfusion hlim.2)
    · obtain ⟨h1, h2⟩ := hlim
      rw [← h1]
      injection h2 with h2
      dsimp only
      omega
    · exact (Option.noConfusion hlim.2)
  have heq : moveToActive q (some c) token now
      = ({ q with
            wait := rest,
            delayed := (id, now + d) :: q.delayed,
            bucket := b' }, .limited d) := by
    unfold moveToActive
    rw [hw]
    dsimp only
    rw [hlim]
    simp [hp]
  exact ⟨heq, hd, by rw [heq]⟩

/-- In every reachable worker state, a resolved pause() implies the local
paused flag is set and all in-flight slots have drained. -/
theorem pauseResolved_invariant (s : WState) (hr : WReachable s) :
    s.pauseResolved = true → s.paused = true ∧ s.inflight = 0 := by
  induction hr with
  | refl => intro h; simp [initW] at h
  | tail hab hstep ih =>
    obtain ⟨e, hs⟩ := hstep
    cases hs with
    | fetch h =>
      intro hres
      rcases ih hres with ⟨hp, _⟩
      rw [h] at hp
      simp at hp
    | finish h =>
      intro hres
      rcases ih hres with ⟨hp, hz⟩
      omega
    | pauseCall =>
      intro hres
      rcases ih hres with ⟨hp, hz⟩
      exact ⟨rfl, hz⟩
    | pauseResolve hp hd =>
      intro _
      exact ⟨hp, hd⟩
    | resumeCall =>
      intro hres
      simp at hres

/-- Claim C2: worker.pause() resolves only after all in-flight processor
slots have drained — the resolve step requires zero in-flight slots — and
once pause() has resolved the worker has zero active jobs and can produce
no further active events (no fetch step exists) until resume() is
called. -/
theorem worker_pause_drains (s : WState) (hr : WReachable s) :
    (∀ s', WStep s WEvent.pauseResolve s' → s.inflight = 0) ∧
    (s.pauseResolved = true →
      s.inflight = 0 ∧ ∀ s', ¬ WStep s WEvent.fetch s') := by
  refine ⟨fun s' hs => ?_, fun hres => ?_⟩
  · cases hs with
    | pauseResolve hp hd => exact hd
  · obtain ⟨hp, hz⟩ := pauseResolved_invariant s hr hres
    refine ⟨hz, fun s' hf => ?_⟩
    cases hf with
    | fetch h =>
      rw [h] at hp
      simp at hp

/-- Witness for C2: the worker state reached by pause(); resolve has no
in-flight jobs. -/
theorem worker_pause_drains_witness : examplePausedW.inflight = 0 :=
  ((worker_pause_drains examplePausedW
    (Relation.ReflTransGen.tail
      (Relation.ReflTransGen.single
        ⟨WEvent.pauseCall, WStep.pauseCall initW⟩)
      ⟨WEvent.pauseResolve, WStep.pauseResolve ⟨true, false, 0⟩ rfl rfl⟩)).2
    rfl).1

/-- With max = 1 tokens per duration D, consecutive admitted activations
are at least D apart, so the last of the trace lies at least
(length - 1) * D after its head. -/
theorem traceAdmitted_max_one_step (D : Nat) :
    ∀ (ts : List Nat) (t : Nat),
      traceAdmitted ⟨1, D⟩ ⟨1, t + D⟩ ts = true →
      t + ts.length * D ≤ (t :: ts).getLast (List.cons_ne_nil t ts) := by
  intro ts
  induction ts with
  | nil =>
    intro t _
    simp
  | cons t' ts' ih =>
    intro t h
    unfold traceAdmitted at h
    by_cases hge : t + D ≤ t'
    · have hlim : limiterHit ⟨1, t + D⟩ ⟨1, D⟩ t' = (⟨1, t' + D⟩, none) := by
        simp [limiterHit, hge]
      rw [hlim] at h
      simp only at h
      have hrec := ih t' h
      rw [List.getLast_cons (List.cons_ne_nil t' ts')]
      simp only [List.length_cons]
      rw [Nat.succ_mul]
      omega
    · have hlim : limiterHit ⟨1, t + D⟩ ⟨1, D⟩ t'
          = (⟨2, t + D⟩, some (t + D - t')) := by
        simp [limiterHit, hge]
      rw [hlim] at h
      simp at h

/-- Claim C4: with a limiter of max = 1 token per duration D, for every
admitted trace of N = length (t :: ts) job activations and any completion
time of the last job at or after the last activation, the wall time from
any start at or before the first activation is at least (N - 1) * D. -/
theorem rate_limit_wall_time (D start tEnd t : Nat) (ts : List Nat)
    (hadm : traceAdmitted ⟨1, D⟩ ⟨0, 0⟩ (t :: ts) = true) (hs : start ≤ t)
    (hfin : (t :: ts).getLast (List.cons_ne_nil t ts) ≤ tEnd) :
    start + ts.length * D ≤ tEnd := by
  unfold traceAdmitted at hadm
  have hlim : limiterHit ⟨0, 0⟩ ⟨1, D⟩ t = (⟨1, t + D⟩, none) := by
    simp [limiterHit]
  rw [hlim] at hadm
  simp only at hadm
  have := traceAdmitted_max_one_step D ts t hadm
  omega

/-- Witness for C4: four jobs at a 1-per-1000ms limiter take at least
3000ms. -/
theorem rate_limit_wall_time_witness :
    (5 : Nat) + [1005, 2005, 3005].length * 1000 ≤ 3005 :=
  rate_limit_wall_time 1000 5 3005 5 [1005, 2005, 3005] (by rfl)
    (by decide) (by decide)

/-- Claim C5: when a limiter groupKey G is configured but the job data has
no field G, the job id receives no group suffix and the job is rate-limited
in the shared default bucket, the same bucket used with no groupKey at all,
so no per-group limiting applies to such jobs. -/
theorem missing_groupKey_shares_default_bucket (g : String)
    (data : List (String × String)) (id : String)
    (h : data.lookup g = none) :
    groupSuffixedId (some g) data id = id ∧
    limiterBucketKey (some g) data = "limiter" ∧
    limiterBucketKey (some g) data = limiterBucketKey none data := by
  simp [groupSuffixedId, limiterBucketKey, groupValueOf, h]

/-- Witness for C5: a job without the accountId field keeps its plain
id. -/
theorem missing_groupKey_witness :
    groupSuffixedId (some "accountId") [("foo", "1")] "7" = "7" :=
  (missing_groupKey_shares_default_bucket "accountId" [("foo", "1")] "7"
    (by rfl)).1

/-- Witness for C3: the saturated-limiter fetch leaves active unchanged. -/
theorem rate_limited_fetch_delays_job_witness :
    (Scripts.moveToActive Scripts.limitedQ (some ⟨1, 1000⟩) "tok" 50).1.active
      = Scripts.limitedQ.active :=
  (rate_limited_fetch_delays_job Scripts.limitedQ ⟨1, 1000⟩ "tok" 50 "1" []
    50 rfl rfl rfl).2.2

/-- Witness for C6: repeating addJob with the fixed id is a no-op. -/
theorem addJob_fixed_id_idempotent_witness :
    (Scripts.addJob
        (Scripts.addJob Scripts.initQ "n" [] Scripts.optsWithId none 0).1 "n"
        [] Scripts.optsWithId none 0).1
      = (Scripts.addJob Scripts.initQ "n" [] Scripts.optsWithId none 0).1 :=
  (addJob_fixed_id_idempotent Scripts.initQ "n" [] Scripts.optsWithId none 0
    "fixed" rfl).2.1

end Scripts
